import Mathlib

/-!
Verification of the text-to-structured-data extraction pipeline of the
music-hook-theory repository.  Strings from the Python source are modelled
as `List Char`; Python `float` values (all exact multiples of 0.5 here) are
modelled as `ℚ`; fallible extractors return `Option`.  Python's `\s` class
is modelled by its ASCII part, and case folding by `Char.toLower`, which
matches Python `str.lower` on the ASCII text the extractors inspect.
-/

/-- Python `c.lower()` applied to each character of a string. -/
def py_lower (s : List Char) : List Char := s.map Char.toLower

/-- The ASCII characters matched by Python's regex class `\s`. -/
def is_py_space (c : Char) : Bool :=
  decide (c ∈ [' ', '\t', '\n', '\r', '\x0b', '\x0c'])

/-- Python's substring test `pat in s` (`True` iff `pat` occurs contiguously in `s`). -/
def py_contains (pat : List Char) : List Char → Bool
  | [] => List.isPrefixOf pat []
  | c :: rest => List.isPrefixOf pat (c :: rest) || py_contains pat rest

theorem py_contains_iff (pat s : List Char) : py_contains pat s = true ↔ pat <:+: s := by
  induction s with
  | nil =>
    simp [py_contains, List.isPrefixOf_iff_prefix]
  | cons c rest ih =>
    simp only [py_contains, Bool.or_eq_true, List.isPrefixOf_iff_prefix, ih,
      List.infix_cons_iff]

theorem py_contains_append_mono (pat s t : List Char) (h : py_contains pat s = true) :
    py_contains pat (s ++ t) = true := by
  rw [py_contains_iff] at h ⊢
  exact h.trans ⟨[], t, by simp⟩

theorem py_contains_suffix (pat s : List Char) : py_contains pat (s ++ pat) = true := by
  rw [py_contains_iff]
  exact ⟨s, [], by simp⟩

theorem mem_of_py_contains_singleton (a : Char) (s : List Char)
    (h : py_contains [a] s = true) : a ∈ s := by
  rw [py_contains_iff] at h
  exact List.singleton_sublist.mp h.sublist

theorem py_contains_singleton_of_mem (a : Char) (s : List Char) (h : a ∈ s) :
    py_contains [a] s = true := by
  rw [py_contains_iff]
  obtain ⟨u, v, rfl⟩ := List.append_of_mem h
  exact ⟨u, v, by simp⟩

theorem mem_of_py_contains (pat s : List Char) (a : Char) (hpat : a ∈ pat)
    (h : py_contains pat s = true) : a ∈ s := by
  rw [py_contains_iff] at h
  exact h.sublist.mem hpat

/-! ## Harmonic tension scorer
`HookTheoryClient.calculate_spiral_array_tension` from `hook_theory_api.py`.
The normalization `chord_symbol.replace('7','').replace('maj','').replace('min','')`
is modelled by `rep7`, `repmaj`, `repmin`: Python `str.replace` deletes the
non-overlapping occurrences of the pattern found scanning the original string
left to right, which is exactly what these recursions do. -/

/-- Python `s.replace('7', '')`. -/
def rep7 : List Char → List Char
  | [] => []
  | c :: rest => if c = '7' then rep7 rest else c :: rep7 rest

/-- Python `s.replace('maj', '')`. -/
def repmaj : List Char → List Char
  | 'm' :: 'a' :: 'j' :: rest => repmaj rest
  | c :: rest => c :: repmaj rest
  | [] => []

/-- Python `s.replace('min', '')`. -/
def repmin : List Char → List Char
  | 'm' :: 'i' :: 'n' :: rest => repmin rest
  | c :: rest => c :: repmin rest
  | [] => []

/-- The normalization step `chord_symbol.replace('7','').replace('maj','').replace('min','')`. -/
def chord_clean (chord_symbol : List Char) : List Char :=
  repmin (repmaj (rep7 chord_symbol))

/-- The `tension_map` dict literal of `calculate_spiral_array_tension`. -/
def tension_map : List (List Char × ℚ) :=
  [("1".toList, 0.0), ("I".toList, 0.0), ("i".toList, 0.5),
   ("5".toList, 1.0), ("V".toList, 1.0), ("v".toList, 1.5),
   ("4".toList, 1.0), ("IV".toList, 1.0), ("iv".toList, 1.5),
   ("6".toList, 2.0), ("vi".toList, 2.0), ("VI".toList, 2.5),
   ("3".toList, 3.0), ("iii".toList, 3.0), ("III".toList, 3.5),
   ("2".toList, 2.5), ("ii".toList, 2.5), ("II".toList, 3.0),
   ("7".toList, 4.5), ("vii".toList, 4.5), ("VII".toList, 4.0)]

/-- Python `tension_map.get(chord_clean, 2.0)` (the dict's keys are distinct,
so association-list lookup agrees with the dict). -/
def base_tension (c : List Char) : ℚ :=
  ((List.find? (fun p => p.1 == c) tension_map).map Prod.snd).getD 2.0

/-- `HookTheoryClient.calculate_spiral_array_tension`: base tension from the
table lookup on the cleaned symbol, then the three additive modifiers tested
on the original symbol.  The `key_tonic` and `mode` parameters are accepted
and ignored exactly as in the source. -/
def calculate_spiral_array_tension (chord_symbol key_tonic mode : List Char) : ℚ :=
  base_tension (chord_clean chord_symbol)
    + (if py_contains ("7".toList) chord_symbol then 0.5 else 0)
    + (if py_contains ("dim".toList) chord_symbol then 1.5 else 0)
    + (if py_contains ("aug".toList) chord_symbol then 1.5 else 0)

theorem base_tension_nonneg (c : List Char) : 0 ≤ base_tension c := by
  unfold base_tension
  cases h : List.find? (fun p => p.1 == c) tension_map with
  | none => norm_num
  | some p =>
    have hp := List.mem_of_find?_eq_some h
    show (0 : ℚ) ≤ p.2
    fin_cases hp <;> norm_num

theorem if_bonus_nonneg (b : Bool) (x : ℚ) (hx : 0 ≤ x) :
    0 ≤ (if b then x else 0) := by
  cases b <;> simp [hx]

theorem if_bonus_mono (b c : Bool) (x : ℚ) (hx : 0 ≤ x) (h : b = true → c = true) :
    (if b then x else 0) ≤ (if c then x else 0) := by
  cases b with
  | false => exact if_bonus_nonneg c x hx
  | true => rw [h rfl]

/-- C1 counterexample: on `"viidim7"` the scorer does not return 6.5
(the table lookup misses because `dim` is not stripped, so the base is the
default 2.0, not base("vii") = 4.5). -/
theorem c1_viidim7_counterexample :
    calculate_spiral_array_tension ("viidim7".toList) ("C".toList) ("Major".toList) ≠ 6.5 := by
  unfold calculate_spiral_array_tension base_tension
  rw [show chord_clean ("viidim7".toList) = "viidim".toList from by decide]
  rw [show List.find? (fun p => p.1 == "viidim".toList) tension_map = none from by decide]
  rw [show py_contains ("7".toList) ("viidim7".toList) = true from by decide]
  rw [show py_contains ("dim".toList) ("viidim7".toList) = true from by decide]
  rw [show py_contains ("aug".toList) ("viidim7".toList) = false from by decide]
  norm_num

/-- C1 (amended): for every key tonic and mode, the scorer applied to
`"viidim7"` returns the default base 2.0 (the stripped symbol `"viidim"` is
not a key of the table, since `dim` is not among the stripped markers) plus
1.5 for the diminished marker plus 0.5 for the seventh marker, i.e. 4.0. -/
theorem c1_viidim7_tension (key_tonic mode : List Char) :
    calculate_spiral_array_tension ("viidim7".toList) key_tonic mode = 4.0 := by
  unfold calculate_spiral_array_tension base_tension
  rw [show chord_clean ("viidim7".toList) = "viidim".toList from by decide]
  rw [show List.find? (fun p => p.1 == "viidim".toList) tension_map = none from by decide]
  rw [show py_contains ("7".toList) ("viidim7".toList) = true from by decide]
  rw [show py_contains ("dim".toList) ("viidim7".toList) = true from by decide]
  rw [show py_contains ("aug".toList) ("viidim7".toList) = false from by decide]
  norm_num

/-- C9: the tension scorer is total (it is a plain function, never raising),
always returns a value ≥ 0, and when the stripped symbol is not a key of the
lookup table the result is the default base 2.0 plus the applicable
seventh/diminished/augmented modifiers of the original symbol. -/
theorem c9_tension_total_nonneg_default (chord_symbol key_tonic mode : List Char) :
    0 ≤ calculate_spiral_array_tension chord_symbol key_tonic mode ∧
    (List.find? (fun p => p.1 == chord_clean chord_symbol) tension_map = none →
      calculate_spiral_array_tension chord_symbol key_tonic mode =
        2.0 + (if py_contains ("7".toList) chord_symbol then (0.5 : ℚ) else 0)
            + (if py_contains ("dim".toList) chord_symbol then (1.5 : ℚ) else 0)
            + (if py_contains ("aug".toList) chord_symbol then (1.5 : ℚ) else 0)) := by
  constructor
  · have h0 := base_tension_nonneg (chord_clean chord_symbol)
    have h1 := if_bonus_nonneg (py_contains ("7".toList) chord_symbol) (0.5 : ℚ) (by norm_num)
    have h2 := if_bonus_nonneg (py_contains ("dim".toList) chord_symbol) (1.5 : ℚ) (by norm_num)
    have h3 := if_bonus_nonneg (py_contains ("aug".toList) chord_symbol) (1.5 : ℚ) (by norm_num)
    unfold calculate_spiral_array_tension
    linarith
  · intro hnone
    unfold calculate_spiral_array_tension base_tension
    rw [hnone]
    norm_num

/-- Witness for C9 at the concrete symbol `"xyz"`, which misses the table. -/
theorem c9_witness :
    0 ≤ calculate_spiral_array_tension ("xyz".toList) ("C".toList) ("Major".toList) ∧
    calculate_spiral_array_tension ("xyz".toList) ("C".toList) ("Major".toList) =
      2.0 + (if py_contains ("7".toList) ("xyz".toList) then (0.5 : ℚ) else 0)
          + (if py_contains ("dim".toList) ("xyz".toList) then (1.5 : ℚ) else 0)
          + (if py_contains ("aug".toList) ("xyz".toList) then (1.5 : ℚ) else 0) :=
  ⟨(c9_tension_total_nonneg_default ("xyz".toList) ("C".toList) ("Major".toList)).1,
   (c9_tension_total_nonneg_default ("xyz".toList) ("C".toList) ("Major".toList)).2 (by decide)⟩

/-! ## Lemmas about the normalization step, used for claim C2 -/

theorem mem_rep7 (c : Char) (h7 : c ≠ '7') : ∀ l : List Char, c ∈ l → c ∈ rep7 l := by
  intro l
  induction l with
  | nil => intro hl; simp at hl
  | cons x rest ih =>
    intro hl
    simp only [List.mem_cons] at hl
    by_cases hx : x = '7'
    · subst hx
      rcases hl with rfl | hl
      · exact absurd rfl h7
      · simpa [rep7] using ih hl
    · rcases hl with rfl | hl
      · simp [rep7, hx]
      · simp only [rep7, if_neg hx, List.mem_cons]
        exact Or.inr (ih hl)

theorem mem_repmaj (c : Char) (hm : c ≠ 'm') (ha : c ≠ 'a') (hj : c ≠ 'j') :
    ∀ l : List Char, c ∈ l → c ∈ repmaj l := by
  suffices h : ∀ (n : Nat) (l : List Char), l.length ≤ n → c ∈ l → c ∈ repmaj l from
    fun l => h l.length l (Nat.le_refl _)
  intro n
  induction n with
  | zero =>
    intro l hl hc
    rw [Nat.le_zero, List.length_eq_zero] at hl
    subst hl
    simp at hc
  | succ n ih =>
    intro l hl hc
    rw [repmaj.eq_def]
    split
    · next rest =>
      have hr : c ∈ rest := by
        simp only [List.mem_cons] at hc
        rcases hc with h | h | h | h
        · exact absurd h hm
        · exact absurd h ha
        · exact absurd h hj
        · exact h
      exact ih rest (by simp at hl; omega) hr
    · next x rest _ =>
      simp only [List.mem_cons] at hc ⊢
      rcases hc with h | h
      · exact Or.inl h
      · exact Or.inr (ih rest (by simp at hl; omega) h)
    · simp at hc

theorem mem_repmin (c : Char) (hm : c ≠ 'm') (hi : c ≠ 'i') (hn : c ≠ 'n') :
    ∀ l : List Char, c ∈ l → c ∈ repmin l := by
  suffices h : ∀ (n : Nat) (l : List Char), l.length ≤ n → c ∈ l → c ∈ repmin l from
    fun l => h l.length l (Nat.le_refl _)
  intro n
  induction n with
  | zero =>
    intro l hl hc
    rw [Nat.le_zero, List.length_eq_zero] at hl
    subst hl
    simp at hc
  | succ n ih =>
    intro l hl hc
    rw [repmin.eq_def]
    split
    · next rest =>
      have hr : c ∈ rest := by
        simp only [List.mem_cons] at hc
        rcases hc with h | h | h | h
        · exact absurd h hm
        · exact absurd h hi
        · exact absurd h hn
        · exact h
      exact ih rest (by simp at hl; omega) hr
    · next x rest _ =>
      simp only [List.mem_cons] at hc ⊢
      rcases hc with h | h
      · exact Or.inl h
      · exact Or.inr (ih rest (by simp at hl; omega) h)
    · simp at hc

theorem mem_chord_clean (c : Char) (h7 : c ≠ '7') (hm : c ≠ 'm') (ha : c ≠ 'a')
    (hj : c ≠ 'j') (hi : c ≠ 'i') (hn : c ≠ 'n') (l : List Char) (hc : c ∈ l) :
    c ∈ chord_clean l :=
  mem_repmin c hm hi hn _ (mem_repmaj c hm ha hj _ (mem_rep7 c h7 l hc))

theorem find_none_of_mem_missing (c : Char) (u : List Char) (hcu : c ∈ u)
    (hmap : ∀ x ∈ tension_map, c ∉ x.1) :
    List.find? (fun p => p.1 == u) tension_map = none := by
  rw [List.find?_eq_none]
  intro x hx
  simp only [beq_iff_eq]
  intro h
  exact hmap x hx (by rw [h]; exact hcu)

theorem base_default_of_dim (s : List Char) (h : py_contains ("dim".toList) s = true) :
    base_tension (chord_clean s) = 2.0 := by
  have hd : 'd' ∈ s := mem_of_py_contains _ _ 'd' (by decide) h
  have hdc : 'd' ∈ chord_clean s :=
    mem_chord_clean 'd' (by decide) (by decide) (by decide) (by decide) (by decide)
      (by decide) s hd
  unfold base_tension
  rw [find_none_of_mem_missing 'd' _ hdc (by decide)]
  norm_num

theorem base_default_of_aug (s : List Char) (h : py_contains ("aug".toList) s = true) :
    base_tension (chord_clean s) = 2.0 := by
  have hg : 'g' ∈ s := mem_of_py_contains _ _ 'g' (by decide) h
  have hgc : 'g' ∈ chord_clean s :=
    mem_chord_clean 'g' (by decide) (by decide) (by decide) (by decide) (by decide)
      (by decide) s hg
  unfold base_tension
  rw [find_none_of_mem_missing 'g' _ hgc (by decide)]
  norm_num

theorem rep7_append (a b : List Char) : rep7 (a ++ b) = rep7 a ++ rep7 b := by
  induction a with
  | nil => simp [rep7]
  | cons x rest ih => by_cases hx : x = '7' <;> simp [rep7, hx, ih]

theorem chord_clean_append_seven (s : List Char) :
    chord_clean (s ++ "7".toList) = chord_clean s := by
  unfold chord_clean
  rw [rep7_append, show rep7 ("7".toList) = [] from rfl, List.append_nil]

/-- C2 counterexample: appending the diminished marker to `"vii"` strictly
decreases the computed tension (4.5 drops to 3.5), because the stripped
symbol `"viidim"` misses the table and falls back to the default base 2.0. -/
theorem c2_counterexample :
    calculate_spiral_array_tension ("vii".toList ++ "dim".toList) ("C".toList) ("Major".toList) <
      calculate_spiral_array_tension ("vii".toList) ("C".toList) ("Major".toList) := by
  rw [show "vii".toList ++ "dim".toList = "viidim".toList from by decide]
  unfold calculate_spiral_array_tension base_tension
  rw [show chord_clean ("viidim".toList) = "viidim".toList from by decide]
  rw [show chord_clean ("vii".toList) = "vii".toList from by decide]
  rw [show List.find? (fun p => p.1 == "viidim".toList) tension_map = none from by decide]
  rw [show List.find? (fun p => p.1 == "vii".toList) tension_map
      = some ("vii".toList, 4.5) from rfl]
  rw [show py_contains ("7".toList) ("viidim".toList) = false from by decide]
  rw [show py_contains ("dim".toList) ("viidim".toList) = true from by decide]
  rw [show py_contains ("aug".toList) ("viidim".toList) = false from by decide]
  rw [show py_contains ("7".toList) ("vii".toList) = false from by decide]
  rw [show py_contains ("dim".toList) ("vii".toList) = false from by decide]
  rw [show py_contains ("aug".toList) ("vii".toList) = false from by decide]
  norm_num

/-- C2 (amended): appending a seventh marker `"7"` never decreases the
tension.  Appending `"dim"` or `"aug"` never decreases it provided the
stripped symbol's base table tension is at most 3.5; for the stripped
symbols `"vii"` (base 4.5) and `"VII"` (base 4.0) it can decrease the
tension, since the appended marker makes the table lookup miss and fall
back to the default base 2.0. -/
theorem c2_modifier_monotonicity (s key_tonic mode : List Char) :
    calculate_spiral_array_tension s key_tonic mode ≤
      calculate_spiral_array_tension (s ++ "7".toList) key_tonic mode ∧
    (base_tension (chord_clean s) ≤ 3.5 →
      calculate_spiral_array_tension s key_tonic mode ≤
        calculate_spiral_array_tension (s ++ "dim".toList) key_tonic mode ∧
      calculate_spiral_array_tension s key_tonic mode ≤
        calculate_spiral_array_tension (s ++ "aug".toList) key_tonic mode) := by
  refine ⟨?_, fun hb => ⟨?_, ?_⟩⟩
  · unfold calculate_spiral_array_tension
    rw [chord_clean_append_seven]
    have m7 := if_bonus_mono _ _ (0.5 : ℚ) (by norm_num)
      (py_contains_append_mono ("7".toList) s ("7".toList))
    have md := if_bonus_mono _ _ (1.5 : ℚ) (by norm_num)
      (py_contains_append_mono ("dim".toList) s ("7".toList))
    have ma := if_bonus_mono _ _ (1.5 : ℚ) (by norm_num)
      (py_contains_append_mono ("aug".toList) s ("7".toList))
    linarith
  · have hbase : base_tension (chord_clean (s ++ "dim".toList)) = 2.0 :=
      base_default_of_dim _ (py_contains_suffix ("dim".toList) s)
    have hsplit : base_tension (chord_clean s)
        + (if py_contains ("dim".toList) s then (1.5 : ℚ) else 0) ≤ 3.5 := by
      cases hds : py_contains ("dim".toList) s with
      | false => simpa using hb
      | true =>
        rw [base_default_of_dim s hds]
        norm_num
    have hsfx : (if py_contains ("dim".toList) (s ++ "dim".toList)
        then (1.5 : ℚ) else 0) = 1.5 := by
      rw [py_contains_suffix ("dim".toList) s]
      norm_num
    have m7 := if_bonus_mono _ _ (0.5 : ℚ) (by norm_num)
      (py_contains_append_mono ("7".toList) s ("dim".toList))
    have ma := if_bonus_mono _ _ (1.5 : ℚ) (by norm_num)
      (py_contains_append_mono ("aug".toList) s ("dim".toList))
    unfold calculate_spiral_array_tension
    rw [hbase, hsfx]
    linarith
  · have hbase : base_tension (chord_clean (s ++ "aug".toList)) = 2.0 :=
      base_default_of_aug _ (py_contains_suffix ("aug".toList) s)
    have hsplit : base_tension (chord_clean s)
        + (if py_contains ("aug".toList) s then (1.5 : ℚ) else 0) ≤ 3.5 := by
      cases has : py_contains ("aug".toList) s with
      | false => simpa using hb
      | true =>
        rw [base_default_of_aug s has]
        norm_num
    have hsfx : (if py_contains ("aug".toList) (s ++ "aug".toList)
        then (1.5 : ℚ) else 0) = 1.5 := by
      rw [py_contains_suffix ("aug".toList) s]
      norm_num
    have m7 := if_bonus_mono _ _ (0.5 : ℚ) (by norm_num)
      (py_contains_append_mono ("7".toList) s ("aug".toList))
    have md := if_bonus_mono _ _ (1.5 : ℚ) (by norm_num)
      (py_contains_append_mono ("dim".toList) s ("aug".toList))
    unfold calculate_spiral_array_tension
    rw [hbase, hsfx]
    linarith

/-- Witness for C2 at the concrete symbol `"ii"`, whose base tension 2.5
satisfies the hypothesis. -/
theorem c2_witness :
    calculate_spiral_array_tension ("ii".toList) ("C".toList) ("Major".toList) ≤
      calculate_spiral_array_tension ("ii".toList ++ "7".toList) ("C".toList) ("Major".toList) ∧
    calculate_spiral_array_tension ("ii".toList) ("C".toList) ("Major".toList) ≤
      calculate_spiral_array_tension ("ii".toList ++ "dim".toList) ("C".toList) ("Major".toList) ∧
    calculate_spiral_array_tension ("ii".toList) ("C".toList) ("Major".toList) ≤
      calculate_spiral_array_tension ("ii".toList ++ "aug".toList) ("C".toList) ("Major".toList) := by
  have hb : base_tension (chord_clean ("ii".toList)) ≤ 3.5 := by
    rw [show chord_clean ("ii".toList) = "ii".toList from by decide]
    unfold base_tension
    rw [show List.find? (fun p => p.1 == "ii".toList) tension_map
        = some ("ii".toList, 2.5) from rfl]
    norm_num
  have h := c2_modifier_monotonicity ("ii".toList) ("C".toList) ("Major".toList)
  exact ⟨h.1, (h.2 hb).1, (h.2 hb).2⟩

/-! ## Tempo extractor
`extract_bpm` from `search_music_info.py`: the leftmost match of the
case-insensitive regex `(?:bpm|tempo)[:\s]+(\d+)`, returning `int(group(1))`,
else `None`.  After a matched keyword, `[:\s]+(\d+)` matches iff at least one
separator follows and the character right after the maximal separator run is
a digit (backing off the greedy `[:\s]+` leaves another separator, never a
digit, in front of `\d`, so greedy-then-check characterizes the regex). -/

/-- The regex separator class `[:\s]`. -/
def is_bpm_sep (c : Char) : Bool := c = ':' || is_py_space c

/-- Python `int` applied to a run of decimal digits. -/
def nat_of_digits (l : List Char) : Nat :=
  l.foldl (fun a c => 10 * a + (c.toNat - 48)) 0

/-- Matching `[:\s]+(\d+)` at the start of `r`; returns the captured integer. -/
def bpm_after_kw (r : List Char) : Option Nat :=
  let seps := r.takeWhile is_bpm_sep
  let rest := r.dropWhile is_bpm_sep
  let digs := rest.takeWhile Char.isDigit
  if seps.isEmpty then none
  else if digs.isEmpty then none
  else some (nat_of_digits digs)

/-- Matching `(?:bpm|tempo)[:\s]+(\d+)` at the start of `s` (on lowercased text). -/
def bpm_try_at (s : List Char) : Option Nat :=
  if List.isPrefixOf ("bpm".toList) s then bpm_after_kw (s.drop 3)
  else if List.isPrefixOf ("tempo".toList) s then bpm_after_kw (s.drop 5)
  else none

/-- `re.search` semantics: try the pattern at each position, leftmost first. -/
def scan_bpm : List Char → Option Nat
  | [] => none
  | c :: rest =>
    match bpm_try_at (c :: rest) with
    | some n => some n
    | none => scan_bpm rest

/-- `extract_bpm(content)`. -/
def extract_bpm (content : List Char) : Option Nat := scan_bpm (py_lower content)

theorem scan_bpm_none (s : List Char) (hb : py_contains ("bpm".toList) s = false)
    (ht : py_contains ("tempo".toList) s = false) : scan_bpm s = none := by
  induction s with
  | nil => rfl
  | cons c rest ih =>
    simp only [py_contains, Bool.or_eq_false_iff] at hb ht
    have htr : bpm_try_at (c :: rest) = none := by
      unfold bpm_try_at
      rw [hb.1, ht.1]
      rfl
    simp only [scan_bpm, htr]
    exact ih hb.2 ht.2

/-- C3 counterexample: the text `"128 bpm"` (digits immediately followed by
the unit) yields no match, because the regex requires the keyword *before*
the digits. -/
theorem c3_counterexample : extract_bpm ("128 bpm".toList) = none := by decide

/-- C3 (amended): the tempo extractor returns the first integer whose digit
cluster is *preceded* by the literal `"bpm"` or `"tempo"` (case-insensitively)
followed by at least one colon/whitespace separator; when neither keyword
occurs in the text at all, it returns the null not-found value, not zero.
`"bpm: 128"` yields 128 and `"Tempo 93"` yields 93. -/
theorem c3_bpm_extractor :
    extract_bpm ("bpm: 128".toList) = some 128 ∧
    extract_bpm ("Tempo 93".toList) = some 93 ∧
    ∀ t : List Char, py_contains ("bpm".toList) (py_lower t) = false →
      py_contains ("tempo".toList) (py_lower t) = false → extract_bpm t = none := by
  refine ⟨by decide, by decide, fun t hb ht => ?_⟩
  unfold extract_bpm
  exact scan_bpm_none (py_lower t) hb ht

/-- Witness for C3 on a text containing neither keyword. -/
theorem c3_witness : extract_bpm ("three guitars".toList) = none :=
  c3_bpm_extractor.2.2 ("three guitars".toList) (by decide) (by decide)

/-! ## Key/mode extractor
`extract_key_and_mode` from `search_music_info.py`: the case-insensitive
regex `written in the key of\s+([A-G][♭♯#b]?)\s+(Minor|Major)`.  The model
scans the original text position by position (leftmost match), comparing
case-insensitively but returning the captured groups in their original case,
like Python's `match.group`.  The optional accidental is tried greedily
first, falling back to the no-accidental branch exactly as the regex
backtracks; `\s+` being greedy is equivalent to taking the maximal space run
since the tokens that follow never start with a space. -/

/-- Case-insensitive test that `s` starts with the (lowercase) pattern `pat`. -/
def ci_starts (pat s : List Char) : Bool :=
  (s.take pat.length).map Char.toLower == pat

/-- The character class `[A-G]` under `re.IGNORECASE`. -/
def is_tonic_letter (c : Char) : Bool := 'a' ≤ c.toLower && c.toLower ≤ 'g'

/-- The character class `[♭♯#b]` under `re.IGNORECASE` (which adds `B`). -/
def is_accidental (c : Char) : Bool :=
  c = '♭' || c = '♯' || c = '#' || c = 'b' || c = 'B'

/-- The literal part of the pattern, lowercased. -/
def key_phrase : List Char := "written in the key of".toList

/-- Matching `\s+(Minor|Major)` at the start of `r`; returns group 2 in
original case. -/
def mode_part (r : List Char) : Option (List Char) :=
  if (r.takeWhile is_py_space).isEmpty then none
  else if ci_starts ("minor".toList) (r.dropWhile is_py_space) ||
      ci_starts ("major".toList) (r.dropWhile is_py_space) then
    some ((r.dropWhile is_py_space).take 5)
  else none

/-- Matching the whole pattern at the start of `s`; returns (group 1, group 2). -/
def try_key_at (s : List Char) : Option (List Char × List Char) :=
  if ci_starts key_phrase s then
    if ((s.drop key_phrase.length).takeWhile is_py_space).isEmpty then none
    else
      match (s.drop key_phrase.length).dropWhile is_py_space with
      | [] => none
      | t :: r3 =>
        if is_tonic_letter t then
          match r3 with
          | a :: r4 =>
            if is_accidental a then
              match mode_part r4 with
              | some m => some ([t, a], m)
              | none =>
                match mode_part r3 with
                | some m => some ([t], m)
                | none => none
            else
              match mode_part r3 with
              | some m => some ([t], m)
              | none => none
          | [] =>
            match mode_part r3 with
            | some m => some ([t], m)
            | none => none
        else none
  else none

/-- `re.search` semantics: leftmost position where the pattern matches. -/
def scan_key : List Char → Option (List Char × List Char)
  | [] => none
  | c :: rest =>
    match try_key_at (c :: rest) with
    | some r => some r
    | none => scan_key rest

/-- `extract_key_and_mode(content)`: Python returns `(group1, group2)` on a
match and `(None, None)` otherwise, modelled as an `Option` of the pair. -/
def extract_key_and_mode (content : List Char) : Option (List Char × List Char) :=
  scan_key content

/-- C5 counterexample: a text in the key of D Dorian is *not* matched — the
regex alternation accepts only `Minor` and `Major`, not the other modal
names. -/
theorem c5_counterexample :
    extract_key_and_mode ("written in the key of D Dorian".toList) = none := by decide

theorem tonic_not_space (t : Char) (ht : is_tonic_letter t = true) :
    is_py_space t = false := by
  cases hsp : is_py_space t with
  | false => rfl
  | true =>
    have hmem : t ∈ [' ', '\t', '\n', '\r', '\x0b', '\x0c'] :=
      of_decide_eq_true hsp
    fin_cases hmem <;> exact absurd ht (by decide)

theorem accidental_not_space (a : Char) (ha : is_accidental a = true) :
    is_py_space a = false := by
  cases hsp : is_py_space a with
  | false => rfl
  | true =>
    have hmem : a ∈ [' ', '\t', '\n', '\r', '\x0b', '\x0c'] :=
      of_decide_eq_true hsp
    fin_cases hmem <;> exact absurd ha (by decide)

theorem mode_head_shape (mode : List Char)
    (h : mode.map Char.toLower = "minor".toList ∨ mode.map Char.toLower = "major".toList) :
    ∃ m0 m1, mode = m0 :: m1 ∧ is_py_space m0 = false := by
  cases mode with
  | nil => rcases h with h | h <;> simp at h
  | cons m0 m1 =>
    refine ⟨m0, m1, rfl, ?_⟩
    have hm : m0.toLower = 'm' := by
      rcases h with h | h <;>
        · simp only [List.map_cons, show "minor".toList = 'm' :: "inor".toList from rfl,
            show "major".toList = 'm' :: "ajor".toList from rfl, List.cons.injEq] at h
          exact h.1
    cases hsp : is_py_space m0 with
    | false => rfl
    | true =>
      have hmem : m0 ∈ [' ', '\t', '\n', '\r', '\x0b', '\x0c'] :=
        of_decide_eq_true hsp
      fin_cases hmem <;> exact absurd hm (by decide)

theorem mode_part_ok (mode suf : List Char)
    (hmode : mode.map Char.toLower = "minor".toList ∨
      mode.map Char.toLower = "major".toList) :
    (mode_part (' ' :: (mode ++ suf))).isSome = true := by
  obtain ⟨m0, m1, hsplit, hm0⟩ := mode_head_shape mode hmode
  have hlen : mode.length = 5 := by
    rcases hmode with h | h <;>
      · have := congrArg List.length h
        simpa using this
  unfold mode_part
  rw [hsplit, List.cons_append, List.takeWhile_cons_of_pos (by decide),
    List.takeWhile_cons_of_neg (by simp [hm0]),
    List.dropWhile_cons_of_pos (by decide),
    List.dropWhile_cons_of_neg (by simp [hm0]),
    ← List.cons_append, ← hsplit]
  rw [if_neg (by decide)]
  have hte : (mode ++ suf).take ("minor".toList).length = mode := by
    apply List.take_left'
    simpa using hlen
  rcases hmode with h | h
  · rw [show ci_starts ("minor".toList) (mode ++ suf) = true from by
      unfold ci_starts; rw [hte, h]; simp]
    simp
  · rw [show ci_starts ("major".toList) (mode ++ suf) = true from by
      unfold ci_starts
      rw [show ("major".toList).length = ("minor".toList).length from rfl, hte, h]
      simp]
    simp [Bool.or_true]

theorem try_key_at_ok (ph : List Char) (t : Char) (acc mode suf : List Char)
    (hph : ph.map Char.toLower = key_phrase)
    (ht : is_tonic_letter t = true)
    (hacc : acc = [] ∨ ∃ a, acc = [a] ∧ is_accidental a = true)
    (hmode : mode.map Char.toLower = "minor".toList ∨
      mode.map Char.toLower = "major".toList) :
    (try_key_at (ph ++ (' ' :: t :: (acc ++ (' ' :: (mode ++ suf)))))).isSome = true := by
  have hlen : ph.length = key_phrase.length := by
    have := congrArg List.length hph
    simpa using this
  have hci : ci_starts key_phrase
      (ph ++ (' ' :: t :: (acc ++ (' ' :: (mode ++ suf))))) = true := by
    unfold ci_starts
    rw [List.take_left' hlen, hph]
    simp
  have hdrop : (ph ++ (' ' :: t :: (acc ++ (' ' :: (mode ++ suf))))).drop
      key_phrase.length = ' ' :: t :: (acc ++ (' ' :: (mode ++ suf))) :=
    List.drop_left' hlen
  obtain ⟨m, hm⟩ := Option.isSome_iff_exists.mp (mode_part_ok mode suf hmode)
  have hnotsp : is_py_space t = false := tonic_not_space t ht
  unfold try_key_at
  rw [hci, hdrop]
  rw [List.takeWhile_cons_of_pos (by decide),
    List.takeWhile_cons_of_neg (by simp [hnotsp]),
    List.dropWhile_cons_of_pos (by decide),
    List.dropWhile_cons_of_neg (by simp [hnotsp])]
  rcases hacc with rfl | ⟨a, rfl, ha⟩
  · simp only [List.nil_append]
    simp [ht, show is_accidental ' ' = false from by decide, hm]
  · simp only [List.cons_append, List.nil_append]
    simp [ht, ha, hm]

theorem scan_key_append_isSome (a b : List Char)
    (h : (try_key_at b).isSome = true) : (scan_key (a ++ b)).isSome = true := by
  induction a with
  | nil =>
    cases b with
    | nil => exact absurd h (by decide)
    | cons c rest =>
      rw [List.nil_append]
      cases htr : try_key_at (c :: rest) with
      | none => rw [htr] at h; simp at h
      | some r => simp [scan_key, htr]
  | cons x a ih =>
    rw [List.cons_append]
    cases htr : try_key_at (x :: (a ++ b)) with
    | none => simpa [scan_key, htr] using ih
    | some r => simp [scan_key, htr]

/-- C5 (amended): for every text containing, case-insensitively, the phrase
`written in the key of <tonic> <mode>` where tonic is a letter A–G optionally
followed by an ASCII or unicode sharp/flat glyph and mode is `Minor` or
`Major` (only — the regex does not accept the other five modal names, see the
counterexample), the extractor returns a (tonic, mode) pair rather than
not-found. -/
theorem c5_key_mode_extractor (pre suf ph acc mode : List Char) (t : Char)
    (hph : ph.map Char.toLower = key_phrase)
    (ht : is_tonic_letter t = true)
    (hacc : acc = [] ∨ ∃ a, acc = [a] ∧ is_accidental a = true)
    (hmode : mode.map Char.toLower = "minor".toList ∨
      mode.map Char.toLower = "major".toList) :
    (extract_key_and_mode
      (pre ++ (ph ++ (' ' :: t :: (acc ++ (' ' :: (mode ++ suf))))))).isSome = true := by
  unfold extract_key_and_mode
  exact scan_key_append_isSome pre _ (try_key_at_ok ph t acc mode suf hph ht hacc hmode)

/-- Witness for C5: a mixed-case phrase with tonic `D#` and mode `Minor`. -/
theorem c5_witness :
    (extract_key_and_mode (("Intro: ".toList) ++ ("written in the KEY of".toList ++
      (' ' :: 'D' :: (['#'] ++ (' ' :: ("Minor".toList ++ " song".toList))))))).isSome = true :=
  c5_key_mode_extractor ("Intro: ".toList) (" song".toList)
    ("written in the KEY of".toList) ['#'] ("Minor".toList) 'D'
    (by decide) (by decide) (Or.inr ⟨'#', rfl, by decide⟩) (Or.inl (by decide))

/-! ## Section-type extractor
`extract_type` from `search_music_info.py`: lowercase the text once, then an
if-chain of substring tests in a fixed priority order. -/

def extract_type (content : List Char) : List Char :=
  if py_contains ("pre-chorus".toList) (py_lower content) ||
      py_contains ("prechorus".toList) (py_lower content) then "Pre-Chorus".toList
  else if py_contains ("chorus".toList) (py_lower content) then "Chorus".toList
  else if py_contains ("verse".toList) (py_lower content) then "Verse".toList
  else if py_contains ("intro".toList) (py_lower content) then "Intro".toList
  else if py_contains ("outro".toList) (py_lower content) then "Outro".toList
  else if py_contains ("bridge".toList) (py_lower content) then "Bridge".toList
  else if py_contains ("hook".toList) (py_lower content) then "Hook".toList
  else if py_contains ("interlude".toList) (py_lower content) then "Interlude".toList
  else "Unknown".toList

/-- The priority-ordered section keyword table described by the spec, for the
refinement statement of C8: each section name with the keyword spellings that
count as an occurrence (`Pre-Chorus` matches both the hyphenated and the
unhyphenated spelling). -/
def section_keywords : List (List (List Char) × List Char) :=
  [(["pre-chorus".toList, "prechorus".toList], "Pre-Chorus".toList),
   (["chorus".toList], "Chorus".toList),
   (["verse".toList], "Verse".toList),
   (["intro".toList], "Intro".toList),
   (["outro".toList], "Outro".toList),
   (["bridge".toList], "Bridge".toList),
   (["hook".toList], "Hook".toList),
   (["interlude".toList], "Interlude".toList)]

/-- First-match scan over a keyword table, defaulting to `"Unknown"` — the
spec's description of the section-type extractor. -/
def first_section : List (List (List Char) × List Char) → List Char → List Char
  | [], _ => "Unknown".toList
  | e :: rest, content =>
    if e.1.any (fun k => py_contains k (py_lower content)) then e.2
    else first_section rest content

/-- The spec-side section-type extractor: case-insensitive scan in the fixed
order Pre-Chorus, Chorus, Verse, Intro, Outro, Bridge, Hook, Interlude,
returning the first section whose keyword occurs, else `"Unknown"`. -/
def section_type_spec (content : List Char) : List Char :=
  first_section section_keywords content

/-- C8: the code's section-type extractor coincides with the spec's
priority-ordered first-match scan; in particular a text containing
`"pre-chorus"` returns `"Pre-Chorus"` even though it also contains the
substring `"chorus"`, and a text with no keyword returns `"Unknown"`. -/
theorem c8_section_type_first_match (content : List Char) :
    extract_type content = section_type_spec content := by
  unfold extract_type section_type_spec section_keywords
  simp [first_section]

/-! ## Genre extractor
`extract_genre` from `search_music_info.py`: the case-insensitive regex
`(?:genre|style)[:\s]+([A-Za-z\s\-]+)`, returning `group(1).strip()`.
The greedy separator run `[:\s]+` backtracks until the capture group can
start: counting the separator count k down from the maximal run length to 1,
the first k for which the character at position k is in the group class
`[A-Za-z\s-]` succeeds, and the group then extends greedily.  (A whitespace
separator is itself in the group class, which is how the captured group can
consist of whitespace only.) -/

/-- The regex class `[A-Za-z\s\-]`. -/
def genre_group_char (c : Char) : Bool := c.isAlpha || is_py_space c || c = '-'

def genre_find_k (r : List Char) : Nat → Option (List Char)
  | 0 => none
  | k + 1 =>
    match r.drop (k + 1) with
    | [] => genre_find_k r k
    | c :: rest =>
      if genre_group_char c then some ((c :: rest).takeWhile genre_group_char)
      else genre_find_k r k

def genre_after_kw (r : List Char) : Option (List Char) :=
  genre_find_k r (r.takeWhile is_bpm_sep).length

def genre_try_at (s : List Char) : Option (List Char) :=
  if ci_starts ("genre".toList) s then genre_after_kw (s.drop 5)
  else if ci_starts ("style".toList) s then genre_after_kw (s.drop 5)
  else none

def scan_genre : List Char → Option (List Char)
  | [] => none
  | c :: rest =>
    match genre_try_at (c :: rest) with
    | some g => some g
    | none => scan_genre rest

/-- Python `str.strip()`: whitespace removed from both ends. -/
def py_strip (s : List Char) : List Char :=
  ((s.dropWhile is_py_space).reverse.dropWhile is_py_space).reverse

/-- `extract_genre(content)`: the captured group of the leftmost match,
stripped. -/
def extract_genre (content : List Char) : Option (List Char) :=
  (scan_genre content).map py_strip

/-- C6 counterexample: on `"genre  5"` the genre extractor returns the empty
string (the regex separator run backtracks one step and the capture group
matches the second space, which `strip` then removes). -/
theorem c6_counterexample : extract_genre ("genre  5".toList) = some [] := by decide

theorem takeWhile_of_dropWhile_eq_nil (p : Char → Bool) (l : List Char) :
    (l.dropWhile p).takeWhile p = [] := by
  induction l with
  | nil => rfl
  | cons x rest ih =>
    by_cases hx : p x = true
    · rw [List.dropWhile_cons_of_pos hx]
      exact ih
    · rw [List.dropWhile_cons_of_neg hx, List.takeWhile_cons_of_neg hx]

theorem dropWhile_head_false (p : Char → Bool) (s : List Char) (c : Char) (w : List Char)
    (h : s.dropWhile p = c :: w) : p c = false := by
  induction s with
  | nil => simp at h
  | cons x rest ih =>
    by_cases hx : p x = true
    · rw [List.dropWhile_cons_of_pos hx] at h
      exact ih h
    · rw [List.dropWhile_cons_of_neg hx] at h
      cases h
      simpa using hx

theorem py_strip_no_leading (s : List Char) :
    (py_strip s).takeWhile is_py_space = [] := by
  unfold py_strip
  cases hY : ((s.dropWhile is_py_space).reverse.dropWhile is_py_space).reverse with
  | nil => rfl
  | cons c Z =>
    have hsfx : (s.dropWhile is_py_space).reverse.dropWhile is_py_space <:+
        (s.dropWhile is_py_space).reverse := List.dropWhile_suffix _
    have hpre : (c :: Z) <+: s.dropWhile is_py_space := by
      have h3 := List.reverse_prefix.mpr hsfx
      rw [hY] at h3
      simpa using h3
    obtain ⟨t, ht⟩ := hpre
    have hds : s.dropWhile is_py_space = c :: (Z ++ t) := by
      rw [← ht]
      simp
    rw [List.takeWhile_cons_of_neg
      (by simp [dropWhile_head_false is_py_space s c (Z ++ t) hds])]

theorem py_strip_no_trailing (s : List Char) :
    (py_strip s).reverse.takeWhile is_py_space = [] := by
  unfold py_strip
  rw [List.reverse_reverse]
  exact takeWhile_of_dropWhile_eq_nil is_py_space _

theorem mem_py_strip (s : List Char) (c : Char) (h : c ∈ py_strip s) : c ∈ s := by
  unfold py_strip at h
  rw [List.mem_reverse] at h
  have h2 := (List.dropWhile_sublist is_py_space).mem h
  rw [List.mem_reverse] at h2
  exact (List.dropWhile_sublist is_py_space).mem h2

theorem genre_find_k_chars (r : List Char) (g : List Char) :
    ∀ k, genre_find_k r k = some g → ∀ c ∈ g, genre_group_char c = true := by
  intro k
  induction k with
  | zero => intro h; simp [genre_find_k] at h
  | succ k ih =>
    intro h
    simp only [genre_find_k] at h
    split at h
    · exact ih h
    · split at h
      · obtain rfl := Option.some.inj h
        intro c hc
        exact List.mem_takeWhile_imp hc
      · exact ih h

theorem scan_genre_chars (s : List Char) (g : List Char) :
    scan_genre s = some g → ∀ c ∈ g, genre_group_char c = true := by
  induction s with
  | nil => intro h; simp [scan_genre] at h
  | cons x rest ih =>
    intro h
    simp only [scan_genre] at h
    split at h
    · rename_i g2 heq
      obtain rfl := Option.some.inj h
      unfold genre_try_at at heq
      by_cases h1 : ci_starts ("genre".toList) (x :: rest) = true
      · rw [if_pos h1] at heq
        exact genre_find_k_chars _ _ _ heq
      · rw [if_neg h1] at heq
        by_cases h2 : ci_starts ("style".toList) (x :: rest) = true
        · rw [if_pos h2] at heq
          exact genre_find_k_chars _ _ _ heq
        · rw [if_neg h2] at heq
          cases heq
    · exact ih h

/-! ## Metadata aggregator
`extract_music_info_from_text` from `search_music_info.py`, restricted to the
fields the claims concern (bpm, key_tonic, mode, genre, type) — a faithful
projection of the source's result dict: each of these fields is assigned
independently from its extractor, with `key_tonic`/`mode` initialized to
`None` and overwritten together when `extract_key_and_mode` found a key
(guarded by Python truthiness of the returned tonic, `if key:`). -/

structure MusicInfoFields where
  bpm : Option Nat
  key_tonic : Option (List Char)
  mode : Option (List Char)
  genre : Option (List Char)
  type : List Char

/-- Python truthiness of an optional string: `None` and `""` are falsy. -/
def py_truthy : Option (List Char) → Bool
  | none => false
  | some s => !s.isEmpty

def extract_music_info_fields (content : List Char) : MusicInfoFields :=
  { bpm := extract_bpm content
    key_tonic :=
      if py_truthy ((extract_key_and_mode content).map Prod.fst) then
        (extract_key_and_mode content).map Prod.fst
      else none
    mode :=
      if py_truthy ((extract_key_and_mode content).map Prod.fst) then
        (extract_key_and_mode content).map Prod.snd
      else none
    genre := extract_genre content
    type := extract_type content }

/-- C6 (amended): absent fields are represented by the null marker, never
coerced to a default, and the genre extractor always returns a
whitespace-stripped run of letters/whitespace/hyphens — but that run can be
the *empty* string (see the counterexample), contrary to the claim's
"never returns an empty string". -/
theorem c6_genre_stripped (t g : List Char)
    (h : (extract_music_info_fields t).genre = some g) :
    g.takeWhile is_py_space = [] ∧
    g.reverse.takeWhile is_py_space = [] ∧
    ∀ c ∈ g, genre_group_char c = true := by
  have h2 : extract_genre t = some g := h
  unfold extract_genre at h2
  cases hs : scan_genre t with
  | none => rw [hs] at h2; cases h2
  | some g0 =>
    rw [hs] at h2
    obtain rfl := Option.some.inj h2
    refine ⟨py_strip_no_leading g0, py_strip_no_trailing g0, fun c hc => ?_⟩
    exact scan_genre_chars t g0 hs c (mem_py_strip g0 c hc)

/-- Witness for C6: `"genre: Rock"` yields the stripped value `"Rock"`. -/
theorem c6_witness :
    ("Rock".toList).takeWhile is_py_space = [] ∧
    ("Rock".toList).reverse.takeWhile is_py_space = [] ∧
    ∀ c ∈ ("Rock".toList), genre_group_char c = true :=
  c6_genre_stripped ("genre: Rock".toList) ("Rock".toList) (by decide)

/-- C7: key/mode atomicity — in the aggregator's output, `key_tonic` is
present if and only if `mode` is present; the pair is set together or not at
all. -/
theorem c7_key_mode_atomicity (t : List Char) :
    (extract_music_info_fields t).key_tonic.isSome =
      (extract_music_info_fields t).mode.isSome := by
  unfold extract_music_info_fields
  cases h : extract_key_and_mode t with
  | none => simp [py_truthy]
  | some p =>
    by_cases hk : p.1.isEmpty = true
    · simp [py_truthy, hk]
    · simp [py_truthy, hk]

/-- C10: the section-type extractor returns one of exactly nine strings and
never the null not-found sentinel; correspondingly the aggregator's `type`
field is a plain (non-optional) string. -/
theorem c10_type_total (t : List Char) :
    (extract_music_info_fields t).type ∈
      ["Pre-Chorus".toList, "Chorus".toList, "Verse".toList, "Intro".toList,
       "Outro".toList, "Bridge".toList, "Hook".toList, "Interlude".toList,
       "Unknown".toList] := by
  show extract_type t ∈ _
  unfold extract_type
  repeat' split
  all_goals decide

/-! ## Event flattener
The chord-event construction of `HookTheoryClient.process_single_url`
(`hook_theory_api.py`): the scraped progression string is split on commas
(`path_str.split(',')`), tokens are stripped and empty tokens discarded, and
one event is appended per remaining token in order.  The fields `section_id`,
`song_id` and `type` come from the scraped metadata and an md5 hash
(external collaborators), and `absolute_root` from the optional `music21`
dependency; the model carries the per-token fields computed by the core:
the token itself, the placeholder inversion 0, and the tension score. -/

structure ChordEvent where
  roman_numeral : List Char
  inversion : Nat
  tension_strain : ℚ

/-- Python `path_str.split(',')` (keeps empty fields, like `str.split` with
an explicit separator). -/
def split_commas : List Char → List (List Char)
  | [] => [[]]
  | c :: rest =>
    if c = ',' then [] :: split_commas rest
    else
      match split_commas rest with
      | [] => [[c]]
      | h :: t => (c :: h) :: t

/-- `[c.strip() for c in path_str.split(',') if c.strip()]`. -/
def flatten_progression (path_str : List Char) : List (List Char) :=
  ((split_commas path_str).map py_strip).filter (fun c => !c.isEmpty)

/-- The event records built by `process_single_url` for a progression string
(after the `if path_str:` truthiness guard). -/
def process_single_url_events (path_str key_tonic mode : List Char) : List ChordEvent :=
  if path_str.isEmpty then []
  else
    (flatten_progression path_str).map (fun numeral =>
      { roman_numeral := numeral
        inversion := 0
        tension_strain := calculate_spiral_array_tension numeral key_tonic mode })

/-- C4: the flattener splits on commas only.  A comma-delimited progression
`"1,4,5,1"` yields four events in token order, but the space-delimited
progression `"1 4 5 1"` yields a single event whose token is the whole
string — not four events as the claim (and the spec's comma-or-space
splitting) requires. -/
theorem c4_comma_only_split :
    (process_single_url_events ("1 4 5 1".toList) ("C".toList) ("Major".toList)).map
        ChordEvent.roman_numeral = ["1 4 5 1".toList] ∧
    (process_single_url_events ("1,4,5,1".toList) ("C".toList) ("Major".toList)).map
        ChordEvent.roman_numeral =
      ["1".toList, "4".toList, "5".toList, "1".toList] := by
  constructor
  · decide
  · decide
